import Mathlib

/-!
Verification development for the python-backend event ingestion and
analytics pipeline.  The Python sources are shallowly embedded: dicts used
as insertion-ordered counters become association lists, ISO timestamp
strings become seconds-since-epoch naturals, fallible calls become
`Except`/`Option`, and the float literals 0.3/0.4/0.6 of the churn model
become exact rationals.
-/

set_option autoImplicit false

namespace PyBackend

/-! ## Python dict-as-counter

`d[k] = d.get(k, 0) + 1` on a Python dict preserves insertion order of
keys; we model the dict as an association list with the same discipline. -/

variable {κ : Type} [DecidableEq κ]

/-- `d[k] = d.get(k, 0) + 1`: bump the entry for `k`, or append `(k, 1)`
if `k` is not yet a key (Python dicts append new keys at the end). -/
def dictIncr (m : List (κ × Nat)) (k : κ) : List (κ × Nat) :=
  if m.any (fun p => p.1 = k) then
    m.map (fun p => if p.1 = k then (p.1, p.2 + 1) else p)
  else
    m ++ [(k, 1)]

/-- `d.get(k, 0)`: lookup with default 0 (first entry wins, as in a dict
with unique keys). -/
def alookup : List (κ × Nat) → κ → Nat
  | [], _ => 0
  | p :: rest, k => if p.1 = k then p.2 else alookup rest k

/-- Build the counter for a whole key sequence, like the Python loops
`for x in xs: d[key(x)] = d.get(key(x), 0) + 1`. -/
def countKeys (ks : List κ) : List (κ × Nat) :=
  ks.foldl dictIncr []
/-! ## Python list slicing -/

/-- Python slice `lst[-limit:]` for a non-negative `limit`.  For
`limit = 0` the slice is `lst[-0:] = lst[0:]`, i.e. the whole list. -/
def pyLastSlice {α : Type} (l : List α) (limit : Nat) : List α :=
  if limit = 0 then l else l.drop (l.length - limit)
/-! ## EventStreaming (src/services/event_streaming.py)

The spec's EventBus.  `publish_event` serializes a `UserEvent` into the
`event_data` JSON object, appends it to `event_queue` and notifies every
registered consumer; `datetime.utcnow().isoformat()` is passed in as the
`published_at` argument.  A consumer callback is a function that either
succeeds or fails (an `Except.error` models the callback raising). -/

namespace EventStreaming

/-- The `UserEvent` dataclass. -/
structure UserEvent where
  event_type : String
  user_id : Option Int
  timestamp : String
  metadata : List (String × String)
  ip_address : Option String
  user_agent : Option String
  deriving DecidableEq

/-- The `event_data` JSON object built inside `publish_event` and stored
in `event_queue`. -/
structure EventData where
  event_type : String
  user_id : Option Int
  timestamp : String
  metadata : List (String × String)
  ip_address : Option String
  user_agent : Option String
  published_at : String
  deriving DecidableEq

/-- The field-by-field serialization done at the top of `publish_event`. -/
def toEventData (e : UserEvent) (published_at : String) : EventData :=
  { event_type := e.event_type
    user_id := e.user_id
    timestamp := e.timestamp
    metadata := e.metadata
    ip_address := e.ip_address
    user_agent := e.user_agent
    published_at := published_at }

/-- A registered consumer callback; `Except.error` models a raised
exception. -/
def Consumer : Type := EventData → Except String Unit

/-- The `EventStreaming` instance state: the in-memory `event_queue`
(the bus history) and the registered `consumers`. -/
structure Bus where
  event_queue : List EventData
  consumers : List Consumer

/-- `EventStreaming.__init__`. -/
def Bus.init : Bus := { event_queue := [], consumers := [] }

/-- `register_consumer`: append the callback. -/
def register_consumer (s : Bus) (c : Consumer) : Bus :=
  { s with consumers := s.consumers ++ [c] }

/-- `_notify_consumers`: the loop invokes each consumer inside its own
`try/except`, so every registered consumer is invoked and each outcome is
only logged; no exception escapes the loop. -/
def notify_consumers (consumers : List Consumer) (e : EventData) :
    List (Except String Unit) :=
  consumers.map (fun c => c e)

/-- `publish_event`: build `event_data`, append it to `event_queue`, then
notify the consumers.  The whole body sits in a `try/except`, so the call
never raises back to the publisher; the returned list is the per-consumer
outcome log. -/
def publish_event (s : Bus) (e : UserEvent) (published_at : String) :
    Bus × List (Except String Unit) :=
  let ed := toEventData e published_at
  ({ s with event_queue := s.event_queue ++ [ed] },
   notify_consumers s.consumers ed)

/-- `get_recent_events`:
`self.event_queue[-limit:] if self.event_queue else []`. -/
def get_recent_events (s : Bus) (limit : Nat) : List EventData :=
  if s.event_queue.isEmpty then [] else pyLastSlice s.event_queue limit

/-- A whole sequence of publishes (each with its own `published_at`). -/
def publishAll (s : Bus) (l : List (UserEvent × String)) : Bus :=
  l.foldl (fun s2 p => (publish_event s2 p.1 p.2).1) s
/-- A small concrete event used in counterexamples and witnesses. -/
def mkEvent (n : Nat) : UserEvent :=
  { event_type := "login"
    user_id := some (n : Int)
    timestamp := ""
    metadata := []
    ip_address := none
    user_agent := none }

end EventStreaming

/-! ## StreamProcessor (src/data_engineering/streaming/stream_processor.py)

ISO timestamp strings are modelled as seconds since the epoch; the
format/parse round trip (`isoformat` / `fromisoformat`) is the identity
under this encoding.  `queue.Queue` is FIFO: `put` appends, `get` takes
the head. -/

namespace StreamProcessor

/-- The `data` dict of a stream event, with the keys the processors read
via `.get`. -/
structure UserData where
  id : Option Int
  email : Option String
  full_name : Option String
  username : Option String
  deriving DecidableEq

/-- The event dict built by `publish_event`. -/
structure RawEvent where
  timestamp : Nat
  event_type : String
  data : UserData
  deriving DecidableEq

/-- `user_data.get('email', '').split('@')[-1]`. -/
def emailDomain (email : String) : String :=
  (email.splitOn "@").getLastD ""

/-- Output of `process_user_registration`. -/
structure RegistrationRecord where
  user_id : Option Int
  registration_time : Nat
  email_domain : String
  has_full_name : Bool
  deriving DecidableEq

/-- `process_user_registration`; `bool(user_data.get('full_name'))` is
false for both a missing key and an empty string. -/
def process_user_registration (d : UserData) (now : Nat) : RegistrationRecord :=
  { user_id := d.id
    registration_time := now
    email_domain := emailDomain (d.email.getD "")
    has_full_name :=
      match d.full_name with
      | none => false
      | some s => !s.isEmpty }

/-- Output of `process_user_login`. -/
structure LoginRecord where
  user_id : Option Int
  login_time : Nat
  username : Option String
  deriving DecidableEq

/-- `process_user_login`. -/
def process_user_login (d : UserData) (now : Nat) : LoginRecord :=
  { user_id := d.id, login_time := now, username := d.username }

/-- The `processed` payload chosen by the `if/elif/else` in
`stream_worker`. -/
inductive ProcessedData where
  | registration (r : RegistrationRecord)
  | login (r : LoginRecord)
  | passthrough (d : UserData)
  deriving DecidableEq

/-- The `processed_event` dict stored in `processed_events`. -/
structure ProcessedEvent where
  original_timestamp : Nat
  processed_timestamp : Nat
  event_type : String
  processed_data : ProcessedData
  deriving DecidableEq

/-- `StreamProcessor` state: the inbound FIFO queue and the retained
processed events. -/
structure Proc where
  event_queue : List RawEvent
  processed_events : List ProcessedEvent
  deriving DecidableEq

/-- `StreamProcessor.__init__`. -/
def Proc.init : Proc := { event_queue := [], processed_events := [] }

/-- `publish_event`: wrap the payload with a timestamp and put it on the
queue. -/
def publish_event (s : Proc) (event_type : String) (data : UserData)
    (now : Nat) : Proc :=
  { s with event_queue :=
      s.event_queue ++ [{ timestamp := now, event_type := event_type, data := data }] }

/-- The classification branch of `stream_worker`. -/
def classify (ev : RawEvent) (now : Nat) : ProcessedData :=
  if ev.event_type = "user_registration" then
    .registration (process_user_registration ev.data now)
  else if ev.event_type = "user_login" then
    .login (process_user_login ev.data now)
  else
    .passthrough ev.data

/-- The tail of a `stream_worker` iteration: append the processed event,
then, `if len(self.processed_events) > 1000`, keep only
`self.processed_events[-1000:]`. -/
def appendTruncate (l : List ProcessedEvent) (pe : ProcessedEvent) :
    List ProcessedEvent :=
  let appended := l ++ [pe]
  if appended.length > 1000 then appended.drop (appended.length - 1000)
  else appended

/-- One iteration of the `stream_worker` loop at time `now`: dequeue the
next event (or do nothing on `queue.Empty`), classify it and store the
processed record under the 1000-entry retention bound. -/
def stream_worker_step (s : Proc) (now : Nat) : Proc :=
  match s.event_queue with
  | [] => s
  | ev :: rest =>
    { event_queue := rest
      processed_events := appendTruncate s.processed_events
        { original_timestamp := ev.timestamp
          processed_timestamp := now
          event_type := ev.event_type
          processed_data := classify ev now } }

/-- Run the worker loop for one iteration per listed time. -/
def worker_run (s : Proc) (times : List Nat) : Proc :=
  times.foldl stream_worker_step s

/-- The statistics dict returned by `get_real_time_stats`. -/
structure Stats where
  total_events_processed : Nat
  events_last_5_minutes : Nat
  queue_size : Nat
  event_types : List (String × Nat)
  deriving DecidableEq

/-- `(datetime.now() - t).seconds`: the seconds *component* of the
timedelta after normalization into (days, seconds, microseconds), i.e.
the elapsed time modulo 86400 for a non-negative elapsed time — not the
total elapsed seconds (`total_seconds()`). -/
def timedeltaSeconds (now ts : Nat) : Nat := (now - ts) % 86400

/-- `get_real_time_stats`: filter the retained events through
`(datetime.now() - fromisoformat(e['processed_timestamp'])).seconds < 300`
and report the counts. -/
def get_real_time_stats (s : Proc) (now : Nat) : Stats :=
  let recent := s.processed_events.filter
    (fun e => timedeltaSeconds now e.processed_timestamp < 300)
  { total_events_processed := s.processed_events.length
    events_last_5_minutes := recent.length
    queue_size := s.event_queue.length
    event_types := countKeys (recent.map (fun e => e.event_type)) }

/-- `get_recent_events`:
`self.processed_events[-limit:] if self.processed_events else []`. -/
def get_recent_events (s : Proc) (limit : Nat) : List ProcessedEvent :=
  if s.processed_events.isEmpty then [] else pyLastSlice s.processed_events limit
end StreamProcessor

/-! ## AnalyticsETL (src/services/analytics_etl.py)

The SQL queries hand each extractor the windowed rows; the extractors are
modelled as functions of those row lists.  Timestamps are seconds since
the epoch. -/

namespace AnalyticsETL

/-- Relevant parse outcome of the `event_metadata` JSON blob: `invalid`
models a `json.loads` failure, `parsed u` a successful parse whose
`username_attempted` key holds `u` (absent when `none`). -/
inductive Metadata where
  | invalid
  | parsed (username_attempted : Option String)
  deriving DecidableEq

/-- A persisted `UserActivityLog` row, restricted to the columns these
extractors read. -/
structure ActivityRecord where
  user_id : Option Int
  activity_type : String
  ip_address : Option String
  user_agent : Option String
  event_metadata : Option Metadata
  timestamp : Nat
  deriving DecidableEq

/-- `timestamp.hour` for a seconds-since-epoch timestamp. -/
def hourOf (ts : Nat) : Nat := ts / 3600 % 24

/-- Calendar day of a timestamp. -/
def dateOf (ts : Nat) : Nat := ts / 86400

/-- Python `round(x, 2)` — round half to even — modelled exactly on ℚ. -/
def pyRound2 (q : ℚ) : ℚ :=
  let scaled := q * 100
  let f : ℤ := Int.floor scaled
  let r := scaled - f
  ((if r < 1/2 then f else if 1/2 < r then f + 1
    else if 2 ∣ f then f else f + 1) : ℚ) / 100

/-- One row of the `extract_daily_login_stats` result. -/
structure DailyStat where
  date : Nat
  total_logins : Nat
  unique_users : Nat
  avg_logins_per_user : ℚ
  deriving DecidableEq

/-- `extract_daily_login_stats`, applied to the windowed rows: keep the
`login` records, group by calendar date, and report per-date totals,
distinct-user counts and the rounded average.  An empty input produces
the empty list — there is no marker row. -/
def extract_daily_login_stats (rows : List ActivityRecord) : List DailyStat :=
  let login_records := rows.filter (fun r => r.activity_type = "login")
  (countKeys (login_records.map (fun r => dateOf r.timestamp))).map fun p =>
    let total := p.2
    let uniq := ((login_records.filter
      (fun r => dateOf r.timestamp = p.1)).map (fun r => r.user_id)).dedup.length
    { date := p.1
      total_logins := total
      unique_users := uniq
      avg_logins_per_user :=
        if uniq > 0 then pyRound2 ((total : ℚ) / (uniq : ℚ)) else 0 }

/-- One alert dict of `extract_security_alerts`; `key` is the
`ip_address` field for per-IP alerts and the `username` field for
per-username alerts. -/
structure Alert where
  type : String
  severity : String
  key : String
  attempt_count : Nat
  deriving DecidableEq

/-- `attempt.ip_address or 'unknown'`: Python `or` replaces both `None`
and the empty string. -/
def ipKey (r : ActivityRecord) : String :=
  match r.ip_address with
  | none => "unknown"
  | some s => if s = "" then "unknown" else s

/-- The username counted for a record, when any: records with no metadata
(falsy) or unparseable metadata are skipped; a parsed object without the
`username_attempted` key counts as "unknown"
(`metadata.get('username_attempted', 'unknown')`). -/
def usernameKey (r : ActivityRecord) : Option String :=
  match r.event_metadata with
  | none => none
  | some .invalid => none
  | some (.parsed u) => some (u.getD "unknown")

/-- `extract_security_alerts`, applied to the `login_failed` rows of the
scan window: count failures per IP and per attempted username, then emit
one alert per IP with at least 5 failures (severity high at 10) and one
per username with at least 3 failures. -/
def extract_security_alerts (failed_logins : List ActivityRecord) :
    List Alert :=
  let ip_attempts := countKeys (failed_logins.map ipKey)
  let username_attempts := countKeys (failed_logins.filterMap usernameKey)
  (ip_attempts.filterMap fun p =>
    if p.2 ≥ 5 then
      some { type := "multiple_failed_logins_ip"
             severity := if p.2 ≥ 10 then "high" else "medium"
             key := p.1
             attempt_count := p.2 }
    else none)
  ++ (username_attempts.filterMap fun p =>
    if p.2 ≥ 3 then
      some { type := "multiple_failed_logins_user"
             severity := "medium"
             key := p.1
             attempt_count := p.2 }
    else none)

/-- `'Mobile' in ua` — substring containment via `splitOn`. -/
def containsSub (s pat : String) : Bool :=
  (s.splitOn pat).length > 1

/-- The device classification of `extract_user_behavior_patterns`. -/
def deviceType (ua : String) : String :=
  if containsSub ua "Mobile" then "mobile"
  else if containsSub ua "Tablet" then "tablet"
  else "desktop"

/-- `if activity.user_agent:` — `None` and the empty string are falsy. -/
def uaOf (r : ActivityRecord) : Option String :=
  match r.user_agent with
  | none => none
  | some s => if s = "" then none else some s

/-- Python `max(d, key=d.get)` over a dict in iteration (= insertion)
order: among keys with maximal count, the first one encountered wins. -/
def pyMaxByValue (m : List (Nat × Nat)) : Option Nat :=
  match m with
  | [] => none
  | p :: rest =>
    some ((rest.foldl (fun best q => if q.2 > best.2 then q else best) p).1)

/-- Result of `extract_user_behavior_patterns`: either the
"No activity data found" dict or the pattern dict. -/
inductive BehaviorResult where
  | noData (user_id : Int)
  | patterns (user_id : Int) (total_activities : Nat)
      (activity_breakdown : List (String × Nat))
      (most_active_hour : Option Nat)
      (hourly_distribution : List (Nat × Nat))
      (device_usage : List (String × Nat))
      (last_activity : Nat)
  deriving DecidableEq

/-- `extract_user_behavior_patterns`, applied to the query result: the
user's records ordered newest-first, at most 100 of them. -/
def extract_user_behavior_patterns (user_id : Int)
    (activities : List ActivityRecord) : BehaviorResult :=
  if h : activities = [] then .noData user_id
  else
    let activity_counts := countKeys (activities.map (fun a => a.activity_type))
    let hourly_activity := countKeys (activities.map (fun a => hourOf a.timestamp))
    let device_info := countKeys ((activities.filterMap uaOf).map deviceType)
    .patterns user_id activities.length activity_counts
      (pyMaxByValue hourly_activity) hourly_activity device_info
      (activities.head h).timestamp

/-- The per-IP alert dict for a counter entry. -/
def mkIpAlert (p : String × Nat) : Alert :=
  { type := "multiple_failed_logins_ip"
    severity := if p.2 ≥ 10 then "high" else "medium"
    key := p.1
    attempt_count := p.2 }

/-- The per-username alert dict for a counter entry. -/
def mkUserAlert (p : String × Nat) : Alert :=
  { type := "multiple_failed_logins_user"
    severity := "medium"
    key := p.1
    attempt_count := p.2 }

/-- The `most_active_hour` field of a behavior result. -/
def mostActiveHour : BehaviorResult → Option Nat
  | .noData _ => none
  | .patterns _ _ _ h _ _ _ => h

/-- The hour sequence fed to the hourly histogram. -/
def hoursOf (activities : List ActivityRecord) : List Nat :=
  activities.map (fun a => hourOf a.timestamp)

/-- The largest count in a histogram (0 when empty). -/
def maxSnd (m : List (Nat × Nat)) : Nat :=
  m.foldl (fun acc p => max acc p.2) 0

/-- Newest record of the C9 counterexample: one activity at hour 5. -/
def actA : ActivityRecord :=
  { user_id := some 1, activity_type := "login", ip_address := none
    user_agent := none, event_metadata := none, timestamp := 5 * 3600 }

/-- Older record of the C9 counterexample: one activity at hour 3. -/
def actB : ActivityRecord :=
  { user_id := some 1, activity_type := "login", ip_address := none
    user_agent := none, event_metadata := none, timestamp := 3 * 3600 }

/-- The spec scenario: five login_failed records from IP 1.2.3.4 and
four from 5.6.7.8, none with metadata. -/
def rsC4 : List ActivityRecord :=
  List.replicate 5
    { user_id := none, activity_type := "login_failed"
      ip_address := some "1.2.3.4", user_agent := none
      event_metadata := none, timestamp := 0 }
  ++ List.replicate 4
    { user_id := none, activity_type := "login_failed"
      ip_address := some "5.6.7.8", user_agent := none
      event_metadata := none, timestamp := 0 }

end AnalyticsETL

/-! ## predictive_insights (src/routers/advanced_analytics.py)

Only the churn-risk feature engineering is modelled; the float literals
0.3/0.4/0.6/1.0 become exact rationals. -/

namespace AdvancedAnalytics

/-- A user row of the feature matrix, after the merge that fills
`activity_count` (0 when the user has no activity rows). -/
structure PUser where
  account_age_days : Int
  activity_count : Nat
  has_full_name : Bool
  deriving DecidableEq

/-- `churn_risk_score`:
`(age > 30).astype(int) * 0.3 + (count == 0).astype(int) * 0.4 +
(~has_full_name).astype(int) * 0.3`. -/
def churn_risk_score (u : PUser) : ℚ :=
  ((if u.account_age_days > 30 then 1 else 0) : ℚ) * (3/10)
  + ((if u.activity_count = 0 then 1 else 0) : ℚ) * (4/10)
  + ((if ¬ u.has_full_name then 1 else 0) : ℚ) * (3/10)

/-- `pd.cut(score, bins=[0, 0.3, 0.6, 1.0], labels=[...])`: right-closed
bins `(0, 0.3]`, `(0.3, 0.6]`, `(0.6, 1.0]`; a value outside every bin —
in particular `score = 0`, since `include_lowest` defaults to False —
gets no label (NaN). -/
def risk_category (score : ℚ) : Option String :=
  if 0 < score ∧ score ≤ 3/10 then some "Low Risk"
  else if 3/10 < score ∧ score ≤ 6/10 then some "Medium Risk"
  else if 6/10 < score ∧ score ≤ 1 then some "High Risk"
  else none

/-- The concrete user of the C5 boundary counterexample: account younger
than 31 days, some activity, no full name. -/
def userC5 : PUser :=
  { account_age_days := 10, activity_count := 3, has_full_name := false }

end AdvancedAnalytics

/-! ## BatchProcessor (src/data_engineering/etl/batch_processor.py)

The `schedule` library's `run_pending` invokes each due job synchronously
and propagates any exception the job raises; `run_scheduler` wraps it in
a bare `while True`, so a raised exception aborts the loop.  A fire list
stands for the due jobs in time order, each paired with the outcome its
`run_etl_pipeline` call would produce (`Except.error` models a raised
exception). -/

namespace BatchProcessor

/-- The `run_etl_pipeline` output dict, restricted to the keys this
module reads. -/
structure Analytics where
  total_users : Nat
  new_users_last_7_days : Nat
  users_with_full_name : Nat
  deriving DecidableEq

/-- `daily_batch_job`: the body is wrapped in `try/except`, so the job
returns the analytics on success and `None` on failure — it never
raises. -/
def daily_batch_job (pipeline : Except String Analytics) : Option Analytics :=
  match pipeline with
  | .ok a => some a
  | .error _ => none

/-- `_generate_recommendations`. -/
def generate_recommendations (a : Analytics) : List String :=
  (if a.new_users_last_7_days < 5 then
    ["Consider marketing campaigns to increase user acquisition"] else [])
  ++ (if (a.users_with_full_name : ℚ) < (a.total_users : ℚ) * (1/2) then
    ["Encourage users to complete their profiles"] else [])

/-- The weekly report dict. -/
structure Report where
  summary : Analytics
  recommendations : List String
  deriving DecidableEq

/-- `weekly_report`: no `try/except` around `run_etl_pipeline`, so a
pipeline failure propagates to the caller. -/
def weekly_report (pipeline : Except String Analytics) :
    Except String Report :=
  match pipeline with
  | .ok a => .ok { summary := a, recommendations := generate_recommendations a }
  | .error e => .error e

/-- The two cadences registered by `schedule_jobs`. -/
inductive JobKind where
  | daily
  | weekly
  deriving DecidableEq

/-- What one fire of the loop produced. -/
inductive FireOutcome where
  | dailyRan (result : Option Analytics)
  | weeklyRan (report : Report)
  deriving DecidableEq

/-- `run_scheduler`: `while True: schedule.run_pending(); sleep(60)`.
Each due fire runs in order; a daily fire cannot raise
(`daily_batch_job` catches), while a weekly fire whose pipeline raises
propagates out of `run_pending` and aborts the loop, so later fires never
execute. -/
def run_scheduler (fires : List (JobKind × Except String Analytics)) :
    Except String (List FireOutcome) :=
  match fires with
  | [] => .ok []
  | (JobKind.daily, p) :: rest =>
    (run_scheduler rest).map (fun os => .dailyRan (daily_batch_job p) :: os)
  | (JobKind.weekly, p) :: rest =>
    match weekly_report p with
    | .error e => .error e
    | .ok r => (run_scheduler rest).map (fun os => .weeklyRan r :: os)

/-- A healthy analytics payload. -/
def aC8 : Analytics :=
  { total_users := 10, new_users_last_7_days := 10, users_with_full_name := 10 }

end BatchProcessor

/-! ## Concrete instances used in counterexamples and witnesses -/

namespace EventStreaming

/-- A consumer that always raises. -/
def cFail : Consumer := fun _ => Except.error "boom"

/-- A consumer that always succeeds. -/
def cOk : Consumer := fun _ => Except.ok ()

/-- A bus with one failing and one succeeding consumer. -/
def busC2 : Bus := { event_queue := [], consumers := [cFail, cOk] }

/-- A bus whose history holds two events. -/
def busC6 : Bus :=
  { event_queue := [toEventData (mkEvent 0) "", toEventData (mkEvent 1) ""]
    consumers := [] }

end EventStreaming

namespace StreamProcessor

/-- An empty payload dict. -/
def emptyData : UserData :=
  { id := none, email := none, full_name := none, username := none }

/-- A processed event whose processing finished at time 0. -/
def peC3 : ProcessedEvent :=
  { original_timestamp := 0
    processed_timestamp := 0
    event_type := "user_login"
    processed_data := .passthrough emptyData }

/-- A processor state retaining exactly the event processed at time 0. -/
def procC3 : Proc := { event_queue := [], processed_events := [peC3] }

/-- One queued raw event. -/
def rawC10 : RawEvent := { timestamp := 0, event_type := "x", data := emptyData }

/-- A fresh processor with one queued event. -/
def procC10 : Proc := { event_queue := [rawC10], processed_events := [] }

end StreamProcessor

/-! ## Lemma library -/

theorem keys_dictIncr_of_mem (m : List (κ × Nat)) (k : κ)
    (h : m.any (fun p => p.1 = k) = true) :
    (dictIncr m k).map Prod.fst = m.map Prod.fst := by
  unfold dictIncr
  rw [if_pos h, List.map_map]
  apply List.map_congr_left
  intro p _
  simp only [Function.comp_apply]
  by_cases hpk : p.1 = k
  · rw [if_pos hpk]
  · rw [if_neg hpk]

theorem mem_keys_dictIncr (m : List (κ × Nat)) (k x : κ) :
    (x ∈ (dictIncr m k).map Prod.fst) ↔ x ∈ m.map Prod.fst ∨ x = k := by
  by_cases h : m.any (fun p => p.1 = k) = true
  · rw [keys_dictIncr_of_mem m k h]
    constructor
    · exact fun hx => Or.inl hx
    · rintro (hx | rfl)
      · exact hx
      · rcases List.any_eq_true.mp h with ⟨p, hp, hpk⟩
        exact List.mem_map.mpr ⟨p, hp, by simpa using hpk⟩
  · unfold dictIncr
    rw [if_neg h, List.map_append, List.mem_append]
    simp

theorem nodup_keys_dictIncr (m : List (κ × Nat)) (k : κ)
    (h : (m.map Prod.fst).Nodup) : ((dictIncr m k).map Prod.fst).Nodup := by
  by_cases hk : m.any (fun p => p.1 = k) = true
  · rw [keys_dictIncr_of_mem m k hk]; exact h
  · unfold dictIncr
    rw [if_neg hk, List.map_append]
    refine List.Nodup.append h (by simp) ?_
    intro x hx hx2
    simp only [List.map_cons, List.map_nil, List.mem_singleton] at hx2
    subst hx2
    rcases List.mem_map.mp hx with ⟨p, hp, hpk⟩
    exact hk (List.any_eq_true.mpr ⟨p, hp, by simp [hpk]⟩)

theorem alookup_eq_zero_of_not_any (m : List (κ × Nat)) (x : κ)
    (h : ¬ m.any (fun p => p.1 = x) = true) : alookup m x = 0 := by
  induction m with
  | nil => rfl
  | cons p rest ih =>
    simp only [List.any_cons, Bool.or_eq_true, decide_eq_true_eq] at h
    push_neg at h
    simp only [alookup, h.1, if_false]
    exact ih (by simpa using h.2)

theorem alookup_append (m m₂ : List (κ × Nat)) (x : κ) :
    alookup (m ++ m₂) x =
      if m.any (fun p => p.1 = x) then alookup m x else alookup m₂ x := by
  induction m with
  | nil => simp [alookup]
  | cons p rest ih =>
    by_cases hpx : p.1 = x
    · simp [alookup, hpx]
    · simp only [List.cons_append, alookup, hpx, if_false, List.any_cons]
      simpa [hpx] using ih

theorem alookup_mapBump (m : List (κ × Nat)) (k x : κ) :
    alookup (m.map (fun p => if p.1 = k then (p.1, p.2 + 1) else p)) x =
      alookup m x +
        (if x = k ∧ m.any (fun p => p.1 = k) = true then 1 else 0) := by
  induction m with
  | nil => simp [alookup]
  | cons p rest ih =>
    by_cases hpk : p.1 = k
    · by_cases hpx : p.1 = x
      · have hxk : x = k := by rw [← hpx, hpk]
        simp [alookup, hpk, hpx, hxk, List.any_cons]
      · have hkx : ¬ k = x := fun hc => hpx (by rw [hpk, hc])
        have hxk : ¬ x = k := fun hc => hkx hc.symm
        simp only [List.map_cons, hpk, if_true, alookup, hkx, if_false, ih]
        simp [hxk, hpx]
    · by_cases hpx : p.1 = x
      · have hxk : ¬ x = k := fun hc => hpk (by rw [hpx, hc])
        simp [alookup, hpk, hpx, hxk]
      · simp only [List.map_cons, hpk, if_false, alookup, hpx, ih, List.any_cons,
          decide_False, Bool.false_or]

theorem alookup_dictIncr (m : List (κ × Nat)) (k x : κ) :
    alookup (dictIncr m k) x = alookup m x + (if x = k then 1 else 0) := by
  unfold dictIncr
  by_cases h : m.any (fun p => p.1 = k) = true
  · rw [if_pos h, alookup_mapBump]
    by_cases hxk : x = k <;> simp [hxk, h]
  · rw [if_neg h, alookup_append]
    by_cases hxk : x = k
    · subst hxk
      have hz := alookup_eq_zero_of_not_any m x h
      simp [h, alookup, hz]
    · have hkx : ¬ k = x := fun hc => hxk hc.symm
      by_cases hax : m.any (fun p => p.1 = x) = true
      · simp [hax, hxk]
      · have hz := alookup_eq_zero_of_not_any m x hax
        simp [hax, hxk, alookup, hz, hkx]

theorem alookup_countKeys_aux (ks : List κ) (m : List (κ × Nat)) (x : κ) :
    alookup (ks.foldl dictIncr m) x = alookup m x + ks.count x := by
  induction ks generalizing m with
  | nil => simp
  | cons k rest ih =>
    simp only [List.foldl_cons, ih, alookup_dictIncr]
    by_cases hxk : x = k
    · subst hxk
      rw [if_pos rfl, List.count_cons_self]
      omega
    · rw [if_neg hxk, List.count_cons_of_ne hxk]
      omega

/-- The counter's entry for `x` is exactly the number of occurrences of `x`. -/
theorem alookup_countKeys (ks : List κ) (x : κ) :
    alookup (countKeys ks) x = ks.count x := by
  have := alookup_countKeys_aux ks [] x
  simpa [countKeys, alookup] using this

theorem nodup_keys_countKeys_aux (ks : List κ) (m : List (κ × Nat))
    (h : (m.map Prod.fst).Nodup) :
    ((ks.foldl dictIncr m).map Prod.fst).Nodup := by
  induction ks generalizing m with
  | nil => simpa using h
  | cons k rest ih => exact ih _ (nodup_keys_dictIncr m k h)

/-- Python dict keys are unique: the counter has no duplicate keys. -/
theorem nodup_keys_countKeys (ks : List κ) :
    ((countKeys ks).map Prod.fst).Nodup :=
  nodup_keys_countKeys_aux ks [] (by simp)

theorem mem_keys_countKeys_aux (ks : List κ) (m : List (κ × Nat)) (x : κ) :
    x ∈ (ks.foldl dictIncr m).map Prod.fst ↔ x ∈ m.map Prod.fst ∨ x ∈ ks := by
  induction ks generalizing m with
  | nil => simp
  | cons k rest ih =>
    simp only [List.foldl_cons, ih, mem_keys_dictIncr, List.mem_cons]
    tauto

/-- A key is present in the counter iff it occurs in the input sequence. -/
theorem mem_keys_countKeys (ks : List κ) (x : κ) :
    x ∈ (countKeys ks).map Prod.fst ↔ x ∈ ks := by
  have := mem_keys_countKeys_aux ks [] x
  simpa [countKeys] using this

/-- In a map with unique keys, any entry agrees with `alookup` at its key. -/
theorem alookup_of_mem_nodup (m : List (κ × Nat)) (p : κ × Nat)
    (hnd : (m.map Prod.fst).Nodup) (hp : p ∈ m) : alookup m p.1 = p.2 := by
  induction m with
  | nil => cases hp
  | cons q rest ih =>
    simp only [List.map_cons, List.nodup_cons] at hnd
    rcases List.mem_cons.mp hp with rfl | hp2
    · simp [alookup]
    · have hq : ¬ q.1 = p.1 := fun hc => hnd.1 (hc ▸ List.mem_map_of_mem _ hp2)
      simp only [alookup, hq, if_false]
      exact ih hnd.2 hp2

/-- Every entry of the counter is `(k, count k)` for a key `k` of the input. -/
theorem entry_countKeys (ks : List κ) (p : κ × Nat) (hp : p ∈ countKeys ks) :
    p.1 ∈ ks ∧ p.2 = ks.count p.1 := by
  have hk : p.1 ∈ (countKeys ks).map Prod.fst := List.mem_map_of_mem _ hp
  refine ⟨(mem_keys_countKeys ks p.1).mp hk, ?_⟩
  have := alookup_of_mem_nodup (countKeys ks) p (nodup_keys_countKeys ks) hp
  rw [← this, alookup_countKeys]

theorem pyLastSlice_eq_drop {α : Type} (l : List α) (limit : Nat)
    (h : 1 ≤ limit) : pyLastSlice l limit = l.drop (l.length - limit) := by
  unfold pyLastSlice
  rw [if_neg (by omega)]

theorem pyLastSlice_length_le {α : Type} (l : List α) (limit : Nat)
    (h : 1 ≤ limit) : (pyLastSlice l limit).length ≤ limit := by
  rw [pyLastSlice_eq_drop l limit h, List.length_drop]
  omega

namespace EventStreaming

theorem publishAll_event_queue (s : Bus) (l : List (UserEvent × String)) :
    (publishAll s l).event_queue =
      s.event_queue ++ l.map (fun p => toEventData p.1 p.2) := by
  induction l generalizing s with
  | nil => simp [publishAll]
  | cons p rest ih =>
    simp only [publishAll, List.foldl_cons, List.map_cons]
    rw [show (List.foldl (fun s2 q => (publish_event s2 q.1 q.2).1)
        ((publish_event s p.1 p.2).1) rest) =
        publishAll ((publish_event s p.1 p.2).1) rest from rfl, ih]
    simp [publish_event]

end EventStreaming

namespace StreamProcessor

theorem appendTruncate_length (l : List ProcessedEvent) (pe : ProcessedEvent) :
    (appendTruncate l pe).length = min (l.length + 1) 1000 := by
  unfold appendTruncate
  by_cases h : (l ++ [pe]).length > 1000
  · rw [if_pos h, List.length_drop]
    simp only [List.length_append, List.length_cons, List.length_nil] at h ⊢
    omega
  · rw [if_neg h]
    simp only [List.length_append, List.length_cons, List.length_nil] at h ⊢
    omega

theorem appendTruncate_eq_drop (l : List ProcessedEvent) (pe : ProcessedEvent) :
    appendTruncate l pe = (l ++ [pe]).drop (l.length + 1 - 1000) := by
  unfold appendTruncate
  by_cases h : (l ++ [pe]).length > 1000
  · rw [if_pos h]
    simp only [List.length_append, List.length_cons, List.length_nil]
  · rw [if_neg h]
    simp only [List.length_append, List.length_cons, List.length_nil] at h
    rw [show l.length + 1 - 1000 = 0 from by omega, List.drop_zero]

/-- Retained length after draining the queue, one worker iteration per
listed time: the count-based eviction caps it at 1000. -/
theorem worker_run_length (times : List Nat) (s : Proc)
    (hb : s.processed_events.length ≤ 1000)
    (hn : times.length = s.event_queue.length) :
    (worker_run s times).processed_events.length =
      min (s.processed_events.length + s.event_queue.length) 1000 := by
  induction times generalizing s with
  | nil =>
    simp only [worker_run, List.foldl_nil]
    simp only [List.length_nil] at hn
    rw [← hn]
    omega
  | cons t rest ih =>
    cases hq : s.event_queue with
    | nil => rw [hq] at hn; simp at hn
    | cons ev qrest =>
      have hstep : worker_run s (t :: rest) =
          worker_run (stream_worker_step s t) rest := rfl
      rw [hstep]
      have hsq : stream_worker_step s t =
          { event_queue := qrest
            processed_events := appendTruncate s.processed_events
              { original_timestamp := ev.timestamp
                processed_timestamp := t
                event_type := ev.event_type
                processed_data := classify ev t } } := by
        unfold stream_worker_step
        rw [hq]
      rw [hsq]
      have hlen := appendTruncate_length s.processed_events
        { original_timestamp := ev.timestamp
          processed_timestamp := t
          event_type := ev.event_type
          processed_data := classify ev t }
      rw [hq] at hn
      simp only [List.length_cons] at hn
      have := ih { event_queue := qrest
                   processed_events := appendTruncate s.processed_events
                     { original_timestamp := ev.timestamp
                       processed_timestamp := t
                       event_type := ev.event_type
                       processed_data := classify ev t } }
        (by rw [hlen]; omega) (by simpa using hn)
      rw [this, hlen]
      simp only [List.length_cons]
      omega

end StreamProcessor

/-! ## Claim theorems: event bus and stream processor -/

open EventStreaming StreamProcessor in
/-- C1 counterexample. Publishing 1001 events to a fresh
`EventStreaming` bus leaves all 1001 in `event_queue`: the bus history is
not bounded by 1000 and the oldest event is still present, so the claimed
bounded-history invariant fails on the event bus. -/
theorem c1_counterexample :
    (publishAll Bus.init ((List.range 1001).map (fun n => (mkEvent n, "")))).event_queue.length = 1001
    ∧ 1000 < (publishAll Bus.init ((List.range 1001).map (fun n => (mkEvent n, "")))).event_queue.length
    ∧ toEventData (mkEvent 0) ""
        ∈ (publishAll Bus.init ((List.range 1001).map (fun n => (mkEvent n, "")))).event_queue := by
  have hq := publishAll_event_queue Bus.init
    ((List.range 1001).map (fun n => (mkEvent n, "")))
  rw [show Bus.init.event_queue = [] from rfl, List.nil_append] at hq
  refine ⟨?_, ?_, ?_⟩
  · rw [hq, List.length_map, List.length_map, List.length_range]
  · rw [hq, List.length_map, List.length_map, List.length_range]; omega
  · rw [hq]
    exact List.mem_map.mpr ⟨(mkEvent 0, ""),
      List.mem_map.mpr ⟨0, List.mem_range.mpr (by omega), rfl⟩, rfl⟩

open EventStreaming StreamProcessor in
/-- C1 (amended). The `EventStreaming` bus retains the full,
unbounded history of published events — each publish appends and nothing
is ever evicted.  The 1000-entry FIFO bound belongs to the
`StreamProcessor`: each worker iteration appends the processed record and
truncates the retained list to the most recent 1000, dropping the oldest
entries first. -/
theorem c1_amended :
    (∀ (s : Bus) (l : List (UserEvent × String)),
      (publishAll s l).event_queue
        = s.event_queue ++ l.map (fun p => toEventData p.1 p.2))
    ∧ (∀ (l : List ProcessedEvent) (pe : ProcessedEvent),
      (appendTruncate l pe).length = min (l.length + 1) 1000
      ∧ appendTruncate l pe = (l ++ [pe]).drop (l.length + 1 - 1000)) :=
  ⟨publishAll_event_queue,
   fun l pe => ⟨appendTruncate_length l pe, appendTruncate_eq_drop l pe⟩⟩

open EventStreaming in
/-- C2. Delivery isolation: even when the consumer at position `i`
raises on the published event, the history still receives exactly the
appended event, every registered consumer is invoked with the event (the
outcome list is the pointwise application of all consumers), and the
publish call returns normally — no exception reaches the publisher. -/
theorem c2_delivery_isolation (s : Bus) (e : UserEvent) (pub : String)
    (i : Fin s.consumers.length) (msg : String)
    (hfail : s.consumers.get i (toEventData e pub) = Except.error msg) :
    (publish_event s e pub).1.event_queue = s.event_queue ++ [toEventData e pub]
    ∧ (publish_event s e pub).2
        = s.consumers.map (fun c => c (toEventData e pub))
    ∧ ∀ c ∈ s.consumers, c (toEventData e pub) ∈ (publish_event s e pub).2 := by
  refine ⟨rfl, rfl, ?_⟩
  intro c hc
  exact List.mem_map_of_mem _ hc

open EventStreaming in
/-- C2 witness. A concrete bus whose first consumer raises: the
second consumer is still invoked and the history gains the event. -/
theorem c2_delivery_isolation_witness :
    (publish_event busC2 (mkEvent 7) "t").1.event_queue
        = busC2.event_queue ++ [toEventData (mkEvent 7) "t"]
    ∧ (publish_event busC2 (mkEvent 7) "t").2
        = busC2.consumers.map (fun c => c (toEventData (mkEvent 7) "t"))
    ∧ ∀ c ∈ busC2.consumers,
        c (toEventData (mkEvent 7) "t") ∈ (publish_event busC2 (mkEvent 7) "t").2 :=
  c2_delivery_isolation busC2 (mkEvent 7) "t" ⟨0, by decide⟩ "boom" rfl

open EventStreaming in
/-- C6 counterexample. `RecentEvents(0)` on a two-event history
returns the whole history (`lst[-0:]` is `lst[0:]`), not at most 0
events. -/
theorem c6_counterexample :
    get_recent_events busC6 0
      = [toEventData (mkEvent 0) "", toEventData (mkEvent 1) ""]
    ∧ ¬ (get_recent_events busC6 0).length ≤ 0 := by
  constructor
  · rfl
  · decide

open EventStreaming StreamProcessor in
/-- C6 (amended). For every positive `limit`, both `RecentEvents`
implementations return the `limit` most recent events — a suffix of the
history, newest last, of length at most `limit` — and the call does not
mutate the history (it is a pure read).  At `limit = 0`, the Python slice
`[-0:]` yields the entire history instead of the empty list. -/
theorem c6_amended :
    (∀ (s : Bus) (limit : Nat), 1 ≤ limit →
      EventStreaming.get_recent_events s limit
          = s.event_queue.drop (s.event_queue.length - limit)
      ∧ (EventStreaming.get_recent_events s limit).length ≤ limit
      ∧ (EventStreaming.get_recent_events s limit).IsSuffix s.event_queue)
    ∧ (∀ s : Bus, EventStreaming.get_recent_events s 0 = s.event_queue)
    ∧ (∀ (s : Proc) (limit : Nat), 1 ≤ limit →
      StreamProcessor.get_recent_events s limit
          = s.processed_events.drop (s.processed_events.length - limit)
      ∧ (StreamProcessor.get_recent_events s limit).length ≤ limit
      ∧ (StreamProcessor.get_recent_events s limit).IsSuffix s.processed_events)
    ∧ (∀ s : Proc, StreamProcessor.get_recent_events s 0 = s.processed_events) := by
  refine ⟨?_, ?_, ?_, ?_⟩
  · intro s limit hl
    unfold EventStreaming.get_recent_events
    by_cases he : s.event_queue.isEmpty
    · rw [if_pos he]
      rw [List.isEmpty_iff] at he
      rw [he]
      exact ⟨by simp, by simp, by simp⟩
    · rw [if_neg he, pyLastSlice_eq_drop _ _ hl]
      refine ⟨rfl, ?_, ?_⟩
      · rw [List.length_drop]; omega
      · exact List.drop_suffix _ _
  · intro s
    unfold EventStreaming.get_recent_events
    by_cases he : s.event_queue.isEmpty
    · rw [if_pos he]
      rw [List.isEmpty_iff] at he
      exact he.symm
    · rw [if_neg he]; rfl
  · intro s limit hl
    unfold StreamProcessor.get_recent_events
    by_cases he : s.processed_events.isEmpty
    · rw [if_pos he]
      rw [List.isEmpty_iff] at he
      rw [he]
      exact ⟨by simp, by simp, by simp⟩
    · rw [if_neg he, pyLastSlice_eq_drop _ _ hl]
      refine ⟨rfl, ?_, ?_⟩
      · rw [List.length_drop]; omega
      · exact List.drop_suffix _ _
  · intro s
    unfold StreamProcessor.get_recent_events
    by_cases he : s.processed_events.isEmpty
    · rw [if_pos he]
      rw [List.isEmpty_iff] at he
      exact he.symm
    · rw [if_neg he]; rfl

open EventStreaming StreamProcessor in
/-- C6 witness. The amended contract applied at `limit = 1` and
`limit = 0` on a concrete two-event history. -/
theorem c6_amended_witness :
    (EventStreaming.get_recent_events busC6 1
        = busC6.event_queue.drop (busC6.event_queue.length - 1)
      ∧ (EventStreaming.get_recent_events busC6 1).length ≤ 1
      ∧ (EventStreaming.get_recent_events busC6 1).IsSuffix busC6.event_queue)
    ∧ EventStreaming.get_recent_events busC6 0 = busC6.event_queue
    ∧ (StreamProcessor.get_recent_events procC3 1
        = procC3.processed_events.drop (procC3.processed_events.length - 1)
      ∧ (StreamProcessor.get_recent_events procC3 1).length ≤ 1
      ∧ (StreamProcessor.get_recent_events procC3 1).IsSuffix procC3.processed_events)
    ∧ StreamProcessor.get_recent_events procC3 0 = procC3.processed_events :=
  ⟨c6_amended.1 busC6 1 (by decide), c6_amended.2.1 busC6,
   c6_amended.2.2.1 procC3 1 (by decide), c6_amended.2.2.2 procC3⟩

open StreamProcessor in
/-- C3 (code bug). `get_real_time_stats` filters with
`(now - processed).seconds < 300`, the seconds *component* of the
timedelta (elapsed time mod 86400) instead of the total elapsed seconds.
Concretely: an event processed at time 0 is correctly outside the window
at `now = 300`, but re-enters `events_last_5_minutes` at `now = 86400`
(exactly one day later), although 86400 seconds have elapsed — the count
grew from 0 to 1 with wall-clock time advancing and no new publishes,
contradicting the claimed 5-minute-lookback semantics. -/
theorem c3_code_bug :
    (get_real_time_stats procC3 300).events_last_5_minutes = 0
    ∧ (get_real_time_stats procC3 86400).events_last_5_minutes = 1
    ∧ ¬ (86400 - peC3.processed_timestamp < 300)
    ∧ timedeltaSeconds 86400 peC3.processed_timestamp < 300 := by
  refine ⟨rfl, rfl, by decide, by decide⟩

open StreamProcessor in
/-- C10. The reported `total_events_processed` is by definition the
length of the retained `processed_events` list; draining a queue of `q`
events from a state retaining at most 1000 leaves exactly
`min (previous + q) 1000` retained, so the total never exceeds 1000 and
is not a lifetime counter. -/
theorem c10_total_is_retained_length (s : Proc) (times : List Nat) (now : Nat)
    (hb : s.processed_events.length ≤ 1000)
    (hn : times.length = s.event_queue.length) :
    (get_real_time_stats (worker_run s times) now).total_events_processed
      = (worker_run s times).processed_events.length
    ∧ (worker_run s times).processed_events.length
      = min (s.processed_events.length + s.event_queue.length) 1000
    ∧ (get_real_time_stats (worker_run s times) now).total_events_processed ≤ 1000 := by
  have h := worker_run_length times s hb hn
  refine ⟨rfl, h, ?_⟩
  have : (get_real_time_stats (worker_run s times) now).total_events_processed
      = (worker_run s times).processed_events.length := rfl
  rw [this, h]
  omega

open StreamProcessor in
/-- C10 witness. The statistic evaluated on a fresh processor with a
single queued event. -/
theorem c10_total_is_retained_length_witness :
    (get_real_time_stats (worker_run procC10 [0]) 0).total_events_processed
      = (worker_run procC10 [0]).processed_events.length
    ∧ (worker_run procC10 [0]).processed_events.length
      = min (procC10.processed_events.length + procC10.event_queue.length) 1000
    ∧ (get_real_time_stats (worker_run procC10 [0]) 0).total_events_processed ≤ 1000 :=
  c10_total_is_retained_length procC10 [0] 0 (by decide) (by decide)

/-! ## Claim theorems: churn risk, empty-input policy, scheduler -/

namespace AdvancedAnalytics

/-- The concrete user of the C5 boundary counterexample: account younger
than 31 days, some activity, no full name. -/
theorem risk_category_low_iff (q : ℚ) :
    risk_category q = some "Low Risk" ↔ 0 < q ∧ q ≤ 3/10 := by
  unfold risk_category
  by_cases h1 : 0 < q ∧ q ≤ 3/10
  · rw [if_pos h1]; simp [h1]
  · rw [if_neg h1]
    by_cases h2 : 3/10 < q ∧ q ≤ 6/10
    · rw [if_pos h2]
      exact ⟨fun hc => absurd (Option.some.inj hc) (by decide),
             fun hc => absurd hc h1⟩
    · rw [if_neg h2]
      by_cases h3 : 6/10 < q ∧ q ≤ 1
      · rw [if_pos h3]
        exact ⟨fun hc => absurd (Option.some.inj hc) (by decide),
               fun hc => absurd hc h1⟩
      · rw [if_neg h3]
        exact ⟨fun hc => absurd hc (by simp), fun hc => absurd hc h1⟩

theorem risk_category_medium_iff (q : ℚ) :
    risk_category q = some "Medium Risk" ↔ 3/10 < q ∧ q ≤ 6/10 := by
  unfold risk_category
  by_cases h1 : 0 < q ∧ q ≤ 3/10
  · rw [if_pos h1]
    exact ⟨fun hc => absurd (Option.some.inj hc) (by decide),
           fun hc => absurd (lt_of_lt_of_le hc.1 h1.2) (lt_irrefl _)⟩
  · rw [if_neg h1]
    by_cases h2 : 3/10 < q ∧ q ≤ 6/10
    · rw [if_pos h2]; simp [h2]
    · rw [if_neg h2]
      by_cases h3 : 6/10 < q ∧ q ≤ 1
      · rw [if_pos h3]
        exact ⟨fun hc => absurd (Option.some.inj hc) (by decide),
               fun hc => absurd hc h2⟩
      · rw [if_neg h3]
        exact ⟨fun hc => absurd hc (by simp), fun hc => absurd hc h2⟩

theorem risk_category_high_iff (q : ℚ) :
    risk_category q = some "High Risk" ↔ 6/10 < q ∧ q ≤ 1 := by
  unfold risk_category
  by_cases h1 : 0 < q ∧ q ≤ 3/10
  · rw [if_pos h1]
    refine ⟨fun hc => absurd (Option.some.inj hc) (by decide), fun hc => ?_⟩
    have : (6/10 : ℚ) < 3/10 := lt_of_lt_of_le hc.1 h1.2
    norm_num at this
  · rw [if_neg h1]
    by_cases h2 : 3/10 < q ∧ q ≤ 6/10
    · rw [if_pos h2]
      refine ⟨fun hc => absurd (Option.some.inj hc) (by decide), fun hc => ?_⟩
      have : (6/10 : ℚ) < 6/10 := lt_of_lt_of_le hc.1 h2.2
      norm_num at this
    · rw [if_neg h2]
      by_cases h3 : 6/10 < q ∧ q ≤ 1
      · rw [if_pos h3]; simp [h3]
      · rw [if_neg h3]
        exact ⟨fun hc => absurd hc (by simp), fun hc => absurd hc h3⟩

end AdvancedAnalytics

open AdvancedAnalytics in
/-- C5 counterexample. A user with a young account, some activity and
no full name scores exactly 0.3, and `pd.cut`'s right-closed bins place
that score in the Low Risk bucket `(0, 0.3]` — not Medium as claimed. -/
theorem c5_counterexample :
    churn_risk_score userC5 = 3/10
    ∧ risk_category (churn_risk_score userC5) = some "Low Risk"
    ∧ ¬ ((some "Low Risk" : Option String) = some "Medium Risk") := by
  have hs : churn_risk_score userC5 = 3/10 := by
    norm_num [churn_risk_score, userC5]
  refine ⟨hs, ?_, by decide⟩
  rw [hs, risk_category_low_iff]
  norm_num

open AdvancedAnalytics in
/-- C5 (amended). The churn risk score is the claimed weighted sum of
the three indicators and always lies in [0, 1]; but the buckets produced
by `pd.cut(bins=[0, 0.3, 0.6, 1.0])` are the right-closed intervals
Low = (0, 0.3], Medium = (0.3, 0.6], High = (0.6, 1.0]: a score of
exactly 0.3 is Low Risk, and a score of 0 falls in no bucket at all. -/
theorem c5_amended (u : PUser) :
    churn_risk_score u
      = ((if u.account_age_days > 30 then 1 else 0) : ℚ) * (3/10)
        + ((if u.activity_count = 0 then 1 else 0) : ℚ) * (4/10)
        + ((if ¬ u.has_full_name then 1 else 0) : ℚ) * (3/10)
    ∧ 0 ≤ churn_risk_score u ∧ churn_risk_score u ≤ 1
    ∧ (risk_category (churn_risk_score u) = some "Low Risk"
        ↔ 0 < churn_risk_score u ∧ churn_risk_score u ≤ 3/10)
    ∧ (risk_category (churn_risk_score u) = some "Medium Risk"
        ↔ 3/10 < churn_risk_score u ∧ churn_risk_score u ≤ 6/10)
    ∧ (risk_category (churn_risk_score u) = some "High Risk"
        ↔ 6/10 < churn_risk_score u ∧ churn_risk_score u ≤ 1)
    ∧ (churn_risk_score u = 0 → risk_category (churn_risk_score u) = none) := by
  have hb : 0 ≤ churn_risk_score u ∧ churn_risk_score u ≤ 1 := by
    unfold churn_risk_score
    split_ifs <;> norm_num
  refine ⟨rfl, hb.1, hb.2,
    risk_category_low_iff _, risk_category_medium_iff _, risk_category_high_iff _, ?_⟩
  intro h0
  rw [h0]
  unfold risk_category
  norm_num

open AnalyticsETL in
/-- C7 counterexample. `extract_daily_login_stats` over an empty
input set returns the bare empty list — the same value as "no logins
occurred" — with no "insufficient data" marker, so the claimed uniform
empty-input policy fails. -/
theorem c7_counterexample :
    extract_daily_login_stats [] = ([] : List DailyStat) := rfl

open AnalyticsETL in
/-- C7 (amended). The empty-input policy is not uniform:
`extract_user_behavior_patterns` does return an explicit
"No activity data found" marker on an empty record set, but
`extract_daily_login_stats` and `extract_security_alerts` return plain
empty lists indistinguishable from "no events occurred". -/
theorem c7_amended :
    (∀ uid : Int, extract_user_behavior_patterns uid [] = .noData uid)
    ∧ extract_daily_login_stats [] = ([] : List DailyStat)
    ∧ extract_security_alerts [] = ([] : List Alert) :=
  ⟨fun _ => rfl, rfl, rfl⟩

open BatchProcessor in
/-- C8 counterexample. A weekly fire whose ETL pipeline raises aborts
the scheduler loop (`weekly_report` has no `try/except` and
`schedule.run_pending` propagates), so the daily fire scheduled after it
never executes: the loop result is the error, with no outcome recorded
for any later fire. -/
theorem c8_counterexample :
    run_scheduler
      [(JobKind.weekly, Except.error "etl failure"),
       (JobKind.daily, Except.ok aC8)]
      = Except.error "etl failure" := rfl

open BatchProcessor in
/-- C8 (amended). The daily job catches its own exceptions
(`daily_batch_job` returns `None` on failure), so daily pipeline failures
never deregister anything: as long as no *weekly* fire's pipeline raises,
every configured fire executes — the loop yields one outcome per fire,
daily failures included.  A weekly pipeline failure, by contrast,
propagates out of the loop. -/
theorem c8_amended (fires : List (JobKind × Except String Analytics))
    (hw : ∀ p : Except String Analytics,
      (JobKind.weekly, p) ∈ fires → ∃ a, p = Except.ok a) :
    ∃ os : List FireOutcome,
      run_scheduler fires = Except.ok os ∧ os.length = fires.length := by
  induction fires with
  | nil => exact ⟨[], rfl, rfl⟩
  | cons f rest ih =>
    obtain ⟨os, hos, hlen⟩ := ih (fun p hp => hw p (List.mem_cons_of_mem _ hp))
    obtain ⟨k, p⟩ := f
    cases k with
    | daily =>
      refine ⟨FireOutcome.dailyRan (daily_batch_job p) :: os, ?_, by simp [hlen]⟩
      have heq : run_scheduler ((JobKind.daily, p) :: rest)
          = (run_scheduler rest).map
              (fun os => FireOutcome.dailyRan (daily_batch_job p) :: os) := rfl
      rw [heq, hos]
      rfl
    | weekly =>
      obtain ⟨a, rfl⟩ := hw p (List.mem_cons_self _ _)
      refine ⟨FireOutcome.weeklyRan ⟨a, generate_recommendations a⟩ :: os,
        ?_, by simp [hlen]⟩
      have heq : run_scheduler ((JobKind.weekly, Except.ok a) :: rest)
          = (run_scheduler rest).map
              (fun os => FireOutcome.weeklyRan ⟨a, generate_recommendations a⟩ :: os) := rfl
      rw [heq, hos]
      rfl

open BatchProcessor in
/-- C8 witness. Two daily fires, the first with a failing pipeline:
both still execute. -/
theorem c8_amended_witness :
    ∃ os : List FireOutcome,
      run_scheduler
        [(JobKind.daily, Except.error "x"), (JobKind.daily, Except.ok aC8)]
        = Except.ok os
      ∧ os.length =
        [(JobKind.daily, Except.error "x"),
         (JobKind.daily, Except.ok aC8)].length :=
  c8_amended _ (by intro p hp; simp at hp)

/-! ## Claim theorems: security alert thresholding -/

namespace AnalyticsETL

theorem mem_filterMap_thresh (mk : String × Nat → Alert) (thr : Nat)
    (m : List (String × Nat)) (a : Alert)
    (ha : a ∈ m.filterMap (fun p => if p.2 ≥ thr then some (mk p) else none)) :
    ∃ p ∈ m, p.2 ≥ thr ∧ a = mk p := by
  rcases List.mem_filterMap.mp ha with ⟨p, hp, hfp⟩
  by_cases hthr : p.2 ≥ thr
  · rw [if_pos hthr] at hfp
    exact ⟨p, hp, hthr, (Option.some.inj hfp).symm⟩
  · rw [if_neg hthr] at hfp
    cases hfp

/-- In a counter with unique keys, filtering the thresholded alerts by a
fixed key yields exactly one alert when the key is present with a count
meeting the threshold, and none otherwise. -/
theorem counter_alert_filter_length (mk : String × Nat → Alert) (thr : Nat)
    (hmk : ∀ p, (mk p).key = p.1) (key : String) :
    ∀ m : List (String × Nat), (m.map Prod.fst).Nodup →
      ((m.filterMap (fun p => if p.2 ≥ thr then some (mk p) else none)).filter
          (fun a => a.key == key)).length
        = if key ∈ m.map Prod.fst ∧ alookup m key ≥ thr then 1 else 0 := by
  intro m
  induction m with
  | nil => intro _; simp
  | cons p rest ih =>
    intro hnd
    simp only [List.map_cons, List.nodup_cons] at hnd
    obtain ⟨hpn, hndr⟩ := hnd
    by_cases hpk : p.1 = key
    · have hkrest : ¬ key ∈ rest.map Prod.fst := fun hmem => hpn (hpk ▸ hmem)
      have hrest0 : ((rest.filterMap
          (fun q => if q.2 ≥ thr then some (mk q) else none)).filter
          (fun a => a.key == key)).length = 0 := by
        rw [ih hndr, if_neg]
        rintro ⟨hmem, _⟩
        exact hkrest hmem
      have hal : alookup (p :: rest) key = p.2 := by
        simp [alookup, hpk]
      have hmem : key ∈ (p :: rest).map Prod.fst := by
        rw [List.map_cons]
        exact List.mem_cons.mpr (Or.inl hpk.symm)
      by_cases hthr : p.2 ≥ thr
      · have hfm : List.filterMap
            (fun q : String × Nat => if q.2 ≥ thr then some (mk q) else none) (p :: rest)
            = mk p :: List.filterMap
              (fun q : String × Nat => if q.2 ≥ thr then some (mk q) else none) rest := by
          simp only [List.filterMap_cons]
          rw [if_pos hthr]
        rw [hfm, List.filter_cons_of_pos (by simp [hmk, hpk]),
          List.length_cons, hrest0, if_pos ⟨hmem, by rw [hal]; exact hthr⟩]
      · have hfm : List.filterMap
            (fun q : String × Nat => if q.2 ≥ thr then some (mk q) else none) (p :: rest)
            = List.filterMap
              (fun q : String × Nat => if q.2 ≥ thr then some (mk q) else none) rest := by
          simp only [List.filterMap_cons]
          rw [if_neg hthr]
        rw [hfm, hrest0,
          if_neg (by rintro ⟨_, hge⟩; rw [hal] at hge; exact hthr hge)]
    · have hal : alookup (p :: rest) key = alookup rest key := by
        simp [alookup, hpk]
      have hmemiff : (key ∈ (p :: rest).map Prod.fst) ↔ key ∈ rest.map Prod.fst := by
        rw [List.map_cons, List.mem_cons]
        exact ⟨fun h => h.elim (fun he => absurd he.symm hpk) id, Or.inr⟩
      have hcond : (if key ∈ (p :: rest).map Prod.fst ∧ alookup (p :: rest) key ≥ thr
            then 1 else 0)
          = if key ∈ rest.map Prod.fst ∧ alookup rest key ≥ thr then 1 else 0 := by
        rw [hal]
        exact if_congr (and_congr hmemiff Iff.rfl) rfl rfl
      rw [hcond, ← ih hndr]
      by_cases hthr : p.2 ≥ thr
      · have hfm : List.filterMap
            (fun q : String × Nat => if q.2 ≥ thr then some (mk q) else none) (p :: rest)
            = mk p :: List.filterMap
              (fun q : String × Nat => if q.2 ≥ thr then some (mk q) else none) rest := by
          simp only [List.filterMap_cons]
          rw [if_pos hthr]
        rw [hfm, List.filter_cons_of_neg (by simp [hmk, hpk])]
      · have hfm : List.filterMap
            (fun q : String × Nat => if q.2 ≥ thr then some (mk q) else none) (p :: rest)
            = List.filterMap
              (fun q : String × Nat => if q.2 ≥ thr then some (mk q) else none) rest := by
          simp only [List.filterMap_cons]
          rw [if_neg hthr]
        rw [hfm]

end AnalyticsETL

open AnalyticsETL in
/-- C4. Security alert thresholding over the records of the scan
window: exactly one per-IP alert is emitted for an IP iff its failure
count is at least 5 (none below), every such alert carries the IP's exact
count and severity "high" iff the count reaches 10 (else "medium"); and
independently exactly one per-username alert (severity "medium", exact
count) is emitted for a username iff its counted failures reach 3 — so
per-IP and per-username alerts co-exist for the same incident. -/
theorem c4_alert_thresholding (rs : List ActivityRecord) (ip u : String) :
    ((extract_security_alerts rs).filter
        (fun a => a.type == "multiple_failed_logins_ip" && a.key == ip)).length
      = (if (rs.map ipKey).count ip ≥ 5 then 1 else 0)
    ∧ (∀ a ∈ extract_security_alerts rs,
        a.type = "multiple_failed_logins_ip" → a.key = ip →
          a.attempt_count = (rs.map ipKey).count ip
          ∧ a.severity = (if (rs.map ipKey).count ip ≥ 10 then "high" else "medium"))
    ∧ ((extract_security_alerts rs).filter
        (fun a => a.type == "multiple_failed_logins_user" && a.key == u)).length
      = (if (rs.filterMap usernameKey).count u ≥ 3 then 1 else 0)
    ∧ (∀ a ∈ extract_security_alerts rs,
        a.type = "multiple_failed_logins_user" → a.key = u →
          a.attempt_count = (rs.filterMap usernameKey).count u
          ∧ a.severity = "medium") := by
  have hsplit : extract_security_alerts rs
      = ((countKeys (rs.map ipKey)).filterMap
          (fun p => if p.2 ≥ 5 then some (mkIpAlert p) else none))
        ++ ((countKeys (rs.filterMap usernameKey)).filterMap
          (fun p => if p.2 ≥ 3 then some (mkUserAlert p) else none)) := rfl
  have hAtype : ∀ a ∈ (countKeys (rs.map ipKey)).filterMap
      (fun p => if p.2 ≥ 5 then some (mkIpAlert p) else none),
      a.type = "multiple_failed_logins_ip" := by
    intro a ha
    obtain ⟨p, _, _, rfl⟩ := mem_filterMap_thresh mkIpAlert 5 _ a ha
    rfl
  have hBtype : ∀ a ∈ (countKeys (rs.filterMap usernameKey)).filterMap
      (fun p => if p.2 ≥ 3 then some (mkUserAlert p) else none),
      a.type = "multiple_failed_logins_user" := by
    intro a ha
    obtain ⟨p, _, _, rfl⟩ := mem_filterMap_thresh mkUserAlert 3 _ a ha
    rfl
  refine ⟨?_, ?_, ?_, ?_⟩
  · rw [hsplit, List.filter_append]
    have hB0 : ((countKeys (rs.filterMap usernameKey)).filterMap
        (fun p => if p.2 ≥ 3 then some (mkUserAlert p) else none)).filter
        (fun a => a.type == "multiple_failed_logins_ip" && a.key == ip) = [] := by
      rw [List.filter_eq_nil_iff]
      intro a ha
      rw [hBtype a ha]
      simp
    have hAfilter : ((countKeys (rs.map ipKey)).filterMap
        (fun p => if p.2 ≥ 5 then some (mkIpAlert p) else none)).filter
        (fun a => a.type == "multiple_failed_logins_ip" && a.key == ip)
        = ((countKeys (rs.map ipKey)).filterMap
        (fun p => if p.2 ≥ 5 then some (mkIpAlert p) else none)).filter
        (fun a => a.key == ip) := by
      apply List.filter_congr
      intro a ha
      rw [hAtype a ha]
      simp
    rw [hB0, List.append_nil, hAfilter,
      counter_alert_filter_length mkIpAlert 5 (fun _ => rfl) ip _
        (nodup_keys_countKeys _)]
    rw [alookup_countKeys]
    by_cases hc : (rs.map ipKey).count ip ≥ 5
    · rw [if_pos hc, if_pos]
      exact ⟨(mem_keys_countKeys _ _).mpr
        (List.count_pos_iff.mp (by omega)), hc⟩
    · rw [if_neg hc, if_neg]
      rintro ⟨_, hge⟩
      exact hc hge
  · intro a ha hty hkey
    rw [hsplit] at ha
    rcases List.mem_append.mp ha with hA | hB
    · obtain ⟨p, hpmem, _, rfl⟩ := mem_filterMap_thresh mkIpAlert 5 _ a hA
      have hent := entry_countKeys _ p hpmem
      have hkeq : p.1 = ip := hkey
      constructor
      · show p.2 = (rs.map ipKey).count ip
        rw [hent.2, hkeq]
      · show (if p.2 ≥ 10 then "high" else "medium")
            = (if (rs.map ipKey).count ip ≥ 10 then "high" else "medium")
        rw [hent.2, hkeq]
    · have := hBtype a hB
      rw [this] at hty
      exact absurd hty (by decide)
  · rw [hsplit, List.filter_append]
    have hA0 : ((countKeys (rs.map ipKey)).filterMap
        (fun p => if p.2 ≥ 5 then some (mkIpAlert p) else none)).filter
        (fun a => a.type == "multiple_failed_logins_user" && a.key == u) = [] := by
      rw [List.filter_eq_nil_iff]
      intro a ha
      rw [hAtype a ha]
      simp
    have hBfilter : ((countKeys (rs.filterMap usernameKey)).filterMap
        (fun p => if p.2 ≥ 3 then some (mkUserAlert p) else none)).filter
        (fun a => a.type == "multiple_failed_logins_user" && a.key == u)
        = ((countKeys (rs.filterMap usernameKey)).filterMap
        (fun p => if p.2 ≥ 3 then some (mkUserAlert p) else none)).filter
        (fun a => a.key == u) := by
      apply List.filter_congr
      intro a ha
      rw [hBtype a ha]
      simp
    rw [hA0, List.nil_append, hBfilter,
      counter_alert_filter_length mkUserAlert 3 (fun _ => rfl) u _
        (nodup_keys_countKeys _)]
    rw [alookup_countKeys]
    by_cases hc : (rs.filterMap usernameKey).count u ≥ 3
    · rw [if_pos hc, if_pos]
      exact ⟨(mem_keys_countKeys _ _).mpr
        (List.count_pos_iff.mp (by omega)), hc⟩
    · rw [if_neg hc, if_neg]
      rintro ⟨_, hge⟩
      exact hc hge
  · intro a ha hty hkey
    rw [hsplit] at ha
    rcases List.mem_append.mp ha with hA | hB
    · have := hAtype a hA
      rw [this] at hty
      exact absurd hty (by decide)
    · obtain ⟨p, hpmem, _, rfl⟩ := mem_filterMap_thresh mkUserAlert 3 _ a hB
      have hent := entry_countKeys _ p hpmem
      have hkeq : p.1 = u := hkey
      exact ⟨by show p.2 = _; rw [hent.2, hkeq], rfl⟩

open AnalyticsETL in
/-- C4 witness: on the spec scenario (five failures from 1.2.3.4, four
from 5.6.7.8) the thresholding yields exactly one alert, for 1.2.3.4,
with severity "medium" and count 5. -/
theorem c4_alert_thresholding_witness :
    ((extract_security_alerts rsC4).filter
        (fun a => a.type == "multiple_failed_logins_ip" && a.key == "1.2.3.4")).length
      = (if (rsC4.map ipKey).count "1.2.3.4" ≥ 5 then 1 else 0)
    ∧ ((extract_security_alerts rsC4).filter
        (fun a => a.type == "multiple_failed_logins_ip" && a.key == "5.6.7.8")).length
      = (if (rsC4.map ipKey).count "5.6.7.8" ≥ 5 then 1 else 0)
    ∧ extract_security_alerts rsC4
        = [{ type := "multiple_failed_logins_ip", severity := "medium",
             key := "1.2.3.4", attempt_count := 5 }] :=
  ⟨(c4_alert_thresholding rsC4 "1.2.3.4" "admin").1,
   (c4_alert_thresholding rsC4 "5.6.7.8" "admin").1,
   by decide⟩

/-! ## Claim theorems: most-active-hour mode -/

namespace AnalyticsETL

theorem foldl_max_init (l : List (Nat × Nat)) :
    ∀ a : Nat, l.foldl (fun acc p => max acc p.2) a = max a (maxSnd l) := by
  induction l with
  | nil =>
    intro a
    simp only [List.foldl_nil, maxSnd]
    omega
  | cons p t ih =>
    intro a
    simp only [List.foldl_cons, maxSnd] at ih ⊢
    rw [ih (max a p.2), ih (max 0 p.2)]
    omega

theorem maxSnd_cons (p : Nat × Nat) (l : List (Nat × Nat)) :
    maxSnd (p :: l) = max p.2 (maxSnd l) := by
  show (p :: l).foldl (fun acc q => max acc q.2) 0 = max p.2 (maxSnd l)
  rw [List.foldl_cons, foldl_max_init]
  omega

theorem maxSnd_le_of_mem (m : List (Nat × Nat)) (p : Nat × Nat)
    (hp : p ∈ m) : p.2 ≤ maxSnd m := by
  induction m with
  | nil => cases hp
  | cons q t ih =>
    rw [maxSnd_cons]
    rcases List.mem_cons.mp hp with rfl | hp2
    · omega
    · have := ih hp2
      omega

theorem find?_cons_pos {α : Type} (P : α → Bool) (a : α) (l : List α)
    (h : P a = true) : (a :: l).find? P = some a := by
  simp [List.find?, h]

theorem find?_cons_neg {α : Type} (P : α → Bool) (a : α) (l : List α)
    (h : P a = false) : (a :: l).find? P = l.find? P := by
  simp [List.find?, h]

theorem foldBest_eq_find (qs : List (Nat × Nat)) :
    ∀ b : Nat × Nat,
      some (qs.foldl (fun best q => if q.2 > best.2 then q else best) b)
        = (b :: qs).find? (fun p => p.2 == maxSnd (b :: qs)) := by
  induction qs with
  | nil =>
    intro b
    simp only [List.foldl_nil]
    have hM : maxSnd [b] = b.2 := by rw [maxSnd_cons]; show max b.2 (maxSnd []) = b.2; simp [maxSnd]
    rw [hM]
    simp [List.find?]
  | cons q qs ih =>
    intro b
    by_cases hq : q.2 > b.2
    · have hfold : (q :: qs).foldl (fun best r => if r.2 > best.2 then r else best) b
          = qs.foldl (fun best r => if r.2 > best.2 then r else best) q := by
        simp only [List.foldl_cons]
        rw [if_pos hq]
      have hqM : q.2 ≤ maxSnd (q :: qs) := by rw [maxSnd_cons]; omega
      have hM : maxSnd (b :: q :: qs) = maxSnd (q :: qs) := by
        rw [maxSnd_cons]
        omega
      have hbne : (b.2 == maxSnd (b :: q :: qs)) = false := by
        rw [hM]
        rw [beq_eq_false_iff_ne]
        omega
      rw [hfold, ih q,
        find?_cons_neg (fun p => p.2 == maxSnd (b :: q :: qs)) b (q :: qs) hbne, hM]
    · have hfold : (q :: qs).foldl (fun best r => if r.2 > best.2 then r else best) b
          = qs.foldl (fun best r => if r.2 > best.2 then r else best) b := by
        simp only [List.foldl_cons]
        rw [if_neg hq]
      have hM : maxSnd (b :: q :: qs) = maxSnd (b :: qs) := by
        rw [maxSnd_cons, maxSnd_cons, maxSnd_cons]
        omega
      rw [hfold, ih b, hM]
      by_cases hb : (b.2 == maxSnd (b :: qs)) = true
      · rw [find?_cons_pos (fun p => p.2 == maxSnd (b :: qs)) b qs hb,
          find?_cons_pos (fun p => p.2 == maxSnd (b :: qs)) b (q :: qs) hb]
      · have hble : b.2 ≤ maxSnd (b :: qs) := by rw [maxSnd_cons]; omega
        have hbf : (b.2 == maxSnd (b :: qs)) = false := by
          rw [beq_eq_false_iff_ne]
          intro hc
          exact hb (by rw [beq_iff_eq]; exact hc)
        have hbeq : ¬ b.2 = maxSnd (b :: qs) := beq_eq_false_iff_ne.mp hbf
        have hqb : (q.2 == maxSnd (b :: qs)) = false := by
          rw [beq_eq_false_iff_ne]
          omega
        rw [find?_cons_neg (fun p => p.2 == maxSnd (b :: qs)) b qs hbf,
          find?_cons_neg (fun p => p.2 == maxSnd (b :: qs)) b (q :: qs) hbf,
          find?_cons_neg (fun p => p.2 == maxSnd (b :: qs)) q qs hqb]

/-- `max(d, key=d.get)` returns the first key, in dict iteration order,
whose count equals the histogram maximum. -/
theorem pyMaxByValue_eq_find (m : List (Nat × Nat)) (hne : ¬ m = []) :
    pyMaxByValue m = (m.find? (fun p => p.2 == maxSnd m)).map Prod.fst := by
  cases m with
  | nil => exact absurd rfl hne
  | cons p rest =>
    show (some ((rest.foldl (fun best q => if q.2 > best.2 then q else best) p).1))
      = ((p :: rest).find? (fun q => q.2 == maxSnd (p :: rest))).map Prod.fst
    rw [← foldBest_eq_find rest p]
    rfl

theorem find?_max_spec (m : List (Nat × Nat)) (h cnt : Nat)
    (hf : m.find? (fun p => p.2 == maxSnd m) = some (h, cnt)) :
    (h, cnt) ∈ m ∧ cnt = maxSnd m := by
  refine ⟨List.mem_of_find?_eq_some hf, ?_⟩
  have := List.find?_some hf
  simpa using this

end AnalyticsETL

theorem countKeys_ne_nil {κ : Type} [DecidableEq κ] (ks : List κ)
    (hne : ¬ ks = []) : ¬ countKeys ks = [] := by
  intro hc
  cases ks with
  | nil => exact hne rfl
  | cons k t =>
    have hm : k ∈ (countKeys (k :: t)).map Prod.fst :=
      (mem_keys_countKeys _ _).mpr (by simp)
    rw [hc] at hm
    simp at hm

theorem counter_mem_entry {κ : Type} [DecidableEq κ] (ks : List κ) (x : κ)
    (hx : x ∈ ks) : (x, ks.count x) ∈ countKeys ks := by
  obtain ⟨p, hp, hpx⟩ := List.mem_map.mp ((mem_keys_countKeys ks x).mpr hx)
  have h2 := (entry_countKeys ks p hp).2
  have hpeq : p = (x, ks.count x) := by
    obtain ⟨p1, p2⟩ := p
    simp only at hpx h2
    subst hpx
    rw [h2]
  rw [← hpeq]
  exact hp

open AnalyticsETL in
/-- C9 counterexample. Two records for user 1, the newer at hour 5
and the older at hour 3, tie at one activity each; the code returns hour
5 — the first hour in dict insertion order — not the smallest hour 3. -/
theorem c9_counterexample :
    mostActiveHour (extract_user_behavior_patterns 1 [actA, actB]) = some 5
    ∧ countKeys (hoursOf [actA, actB]) = [(5, 1), (3, 1)]
    ∧ ¬ (5 : Nat) = 3 := by
  refine ⟨?_, by decide, by decide⟩
  rfl

open AnalyticsETL in
/-- C9 (amended). For a user with at least one record,
`most_active_hour` is the mode of the hourly histogram over the supplied
records, but ties are broken by dict insertion order — the tied hour
whose record occurs first in the newest-first traversal wins, not the
smallest hour value: the result is the first histogram entry whose count
equals the maximum, and that count is the exact occurrence count, no hour
exceeding it. -/
theorem c9_amended (uid : Int) (activities : List ActivityRecord)
    (hne : ¬ activities = []) :
    mostActiveHour (extract_user_behavior_patterns uid activities)
      = ((countKeys (hoursOf activities)).find?
          (fun p => p.2 == maxSnd (countKeys (hoursOf activities)))).map Prod.fst
    ∧ ∀ h cnt,
        (countKeys (hoursOf activities)).find?
            (fun p => p.2 == maxSnd (countKeys (hoursOf activities)))
          = some (h, cnt) →
        cnt = (hoursOf activities).count h
        ∧ ∀ h2 : Nat, (hoursOf activities).count h2 ≤ cnt := by
  have hmost : mostActiveHour (extract_user_behavior_patterns uid activities)
      = pyMaxByValue (countKeys (hoursOf activities)) := by
    unfold extract_user_behavior_patterns
    rw [dif_neg hne]
    rfl
  constructor
  · rw [hmost]
    exact pyMaxByValue_eq_find _
      (countKeys_ne_nil _ (by
        intro hm
        exact hne (by simpa [hoursOf] using hm)))
  · intro h cnt hf
    have hspec := find?_max_spec _ _ _ hf
    have hent := entry_countKeys (hoursOf activities) (h, cnt) hspec.1
    refine ⟨hent.2, ?_⟩
    intro h2
    by_cases hh2 : h2 ∈ hoursOf activities
    · have hmem := counter_mem_entry (hoursOf activities) h2 hh2
      have hle := maxSnd_le_of_mem _ _ hmem
      rw [hspec.2]
      exact hle
    · rw [List.count_eq_zero_of_not_mem hh2]
      exact Nat.zero_le _

open AnalyticsETL in
/-- C9 witness. The amended statement applied to the two-record
input of the counterexample. -/
theorem c9_amended_witness :
    mostActiveHour (extract_user_behavior_patterns 1 [actA, actB])
      = ((countKeys (hoursOf [actA, actB])).find?
          (fun p => p.2 == maxSnd (countKeys (hoursOf [actA, actB])))).map Prod.fst
    ∧ ∀ h cnt,
        (countKeys (hoursOf [actA, actB])).find?
            (fun p => p.2 == maxSnd (countKeys (hoursOf [actA, actB])))
          = some (h, cnt) →
        cnt = (hoursOf [actA, actB]).count h
        ∧ ∀ h2 : Nat, (hoursOf [actA, actB]).count h2 ≤ cnt :=
  c9_amended 1 [actA, actB] (by decide)

end PyBackend
